import Mathlib

/-!
Verification of the PDG API diff tool (`pdgapi-diff`).

The main model (`PdgV1`) is a shallow embedding of the reconciliation core of
the current C++ tool (`src/unnamed/part_004`, first translation unit):
`SqlVal` equality with `isclose` for floats, `SqlRow::distance` with the
strict-column override and early exit, `find_nearest`, and `compare`.
C++ `double` is modelled by `ℚ` and `long` by `Int`; `std::size_t` counters
by `Nat`.  Where those idealizations hide real program behaviour they are
refined: the `DblVal` model below adds IEEE ±Inf/NaN to the doubles for the
Float edge cases of `distance`, and `MainCxx.distClipGo` computes the
`max_dist + 1` break bound modulo `2 ^ 64` as the `size_t` arithmetic does.
The unordered maps are modelled as association lists, which fixes
one iteration order (the C++ order is unspecified but fixed per map).
Out-of-range vector indexing in the C++ (undefined behaviour) is rendered
with `headD`/`getD` defaults; theorems that depend on faithfulness carry
well-formedness hypotheses that keep all accesses in bounds.  The one place
the C++ can raise (calling `.value()` on an empty `std::optional` while
printing the asymmetric-match diagnostic) is modelled by `Except.error`.

A second, independent model (`MainCxx`) embeds the older `src/main.cxx`
row type together with its `distance` / `distance_clipped` pair, for the
early-exit refinement claim.
-/

instance {ε α : Type _} [DecidableEq ε] [DecidableEq α] : DecidableEq (Except ε α) := fun a b =>
  match a, b with
  | .error x, .error y =>
    if h : x = y then .isTrue (congrArg Except.error h)
    else .isFalse (fun he => h (Except.error.inj he))
  | .ok x, .ok y =>
    if h : x = y then .isTrue (congrArg Except.ok h)
    else .isFalse (fun he => h (Except.ok.inj he))
  | .error _, .ok _ => .isFalse (fun he => Except.noConfusion he)
  | .ok _, .error _ => .isFalse (fun he => Except.noConfusion he)

namespace PdgV1

/-- Identity key of a row (`using Ident = std::string`). -/
abbrev Ident := String

/-- Tagged SQL scalar: `std::variant<void*, long, double, std::string>`;
the `void*` alternative only ever holds `nullptr` and represents SQL NULL. -/
inductive SqlVal where
  | null : SqlVal
  | int : Int → SqlVal
  | real : ℚ → SqlVal
  | str : String → SqlVal
deriving DecidableEq

/-- Float comparison `isclose(a, b, rel_tol = 1e-6, abs_tol = 0.0)`:
`fabs(a - b) <= max(rel_tol * max(fabs(a), fabs(b)), abs_tol)`. -/
def isclose (a b : ℚ) : Bool :=
  decide (|a - b| ≤ max ((1 / 1000000 : ℚ) * max |a| |b|) 0)

/-- `operator==(const SqlVal&, const SqlVal&)`: alternatives must match;
doubles compare with `isclose`, all other alternatives compare exactly. -/
def sqlValEq : SqlVal → SqlVal → Bool
  | .null, .null => true
  | .int a, .int b => a == b
  | .real a, .real b => isclose a b
  | .str a, .str b => a == b
  | _, _ => false

/-- `std::vector<SqlVal>::operator==`: equal sizes and elementwise equality
(using the custom `SqlVal` equality, hence `isclose` for doubles). -/
def valsEq : List SqlVal → List SqlVal → Bool
  | [], [] => true
  | a :: as, b :: bs => sqlValEq a b && valsEq as bs
  | _, _ => false

/-- A row: the inherited `std::vector<SqlVal>` payload (`vals`), the identity
key, and a copy of the schema's column names. -/
structure SqlRow where
  ident : String
  col_names : List String
  vals : List SqlVal
deriving DecidableEq

/-- `SqlRow::operator==`: compares `ident` and the value vector only
(`col_names` is not compared). -/
def rowEq (a b : SqlRow) : Bool :=
  a.ident == b.ident && valsEq a.vals b.vals

/-- `constants::strict_cols = { "value_type" }`. -/
def strict_cols : List String := ["value_type"]

/-- `std::set<std::string>::count(s) != 0` over the model's list of names. -/
def memStr (s : String) : List String → Bool
  | [] => false
  | c :: rest => if c = s then true else memStr s rest

/-- Loop body of `SqlRow::distance`: walk the positions of the left row,
count mismatching columns, return 5000 at once on a strict-column mismatch,
and stop as soon as the count reaches `maxDist + 1`.  The right-hand values
and the column names are consumed positionally (out-of-range access in the
C++ is undefined; the model reads a default). -/
def distGo (maxDist : Nat) : List SqlVal → List SqlVal → List String → Nat → Nat
  | [], _, _, ret => ret
  | v :: vs, bs, cs, ret =>
    if sqlValEq v (bs.headD .null) then
      if ret = maxDist + 1 then ret else distGo maxDist vs bs.tail cs.tail ret
    else if memStr (cs.headD "") strict_cols then 5000
    else if ret + 1 = maxDist + 1 then ret + 1
    else distGo maxDist vs bs.tail cs.tail (ret + 1)

/-- `SqlRow::distance`: sentinel 10000 for different identities, otherwise the
clipped mismatch count with the strict-column override (`settings::max_dist`
is passed explicitly as `maxDist`). -/
def SqlRow.distance (a b : SqlRow) (maxDist : Nat) : Nat :=
  if a.ident ≠ b.ident then 10000
  else distGo maxDist a.vals b.vals a.col_names 0

/-- `SqlMap`: `std::unordered_map<Ident, std::vector<SqlRow>>` plus the
schema's column names; the map is an association list with a fixed order. -/
structure SqlMap where
  buckets : List (Ident × List SqlRow)
  col_names : List String
deriving DecidableEq

/-- Map lookup (`count` / `at` on the unordered map). -/
def mapFind? : List (Ident × List SqlRow) → String → Option (List SqlRow)
  | [], _ => none
  | kb :: rest, k => if kb.1 = k then some kb.2 else mapFind? rest k

/-- Runtime configuration: `settings::max_dist` and `settings::pedantic`. -/
structure Cfg where
  maxDist : Nat
  pedantic : Bool

/-- The candidate scan of `find_nearest`: running minimum distance and the
list of candidates achieving it.  A strictly smaller distance resets the
minimum and clears the list (and the new minimum equals the distance just
computed, so the candidate is recorded at once); a distance equal to the
running minimum appends the candidate. -/
def scanBucket (maxDist : Nat) (needle : SqlRow) :
    List SqlRow → Nat → List SqlRow → Nat × List SqlRow
  | [], m, ms => (m, ms)
  | straw :: rest, m, ms =>
    if needle.distance straw maxDist < m then
      scanBucket maxDist needle rest (needle.distance straw maxDist) [straw]
    else if needle.distance straw maxDist = m then
      scanBucket maxDist needle rest m (ms ++ [straw])
    else
      scanBucket maxDist needle rest m ms

/-- `find_nearest(needle, haystack)`: look up the needle's identity bucket,
scan it starting from `min_dist = 1000`, give up if the minimum exceeds
`settings::max_dist`, otherwise return the first recorded candidate
(`*matches[0]`; the C++ dereference of an empty list is undefined, rendered
here as `head?`). -/
def find_nearest (cfg : Cfg) (needle : SqlRow) (haystack : SqlMap) : Option SqlRow :=
  match mapFind? haystack.buckets needle.ident with
  | none => none
  | some bucket =>
    let scanned := scanBucket cfg.maxDist needle bucket 1000 []
    if scanned.1 > cfg.maxDist then none
    else scanned.2.head?

/-- The delta type: `std::variant<Insert, Delete, Update>`. -/
inductive Delta where
  | ins : SqlRow → Delta
  | del : SqlRow → Delta
  | upd : SqlRow → SqlRow → Delta
deriving DecidableEq

/-- Diagnostic events written to `stderr` by `compare` (the ambiguity
diagnostics printed inside `find_nearest` do not influence any value and are
not modelled). -/
inductive Diag where
  | asymmetric : Diag
deriving DecidableEq

/-- `std::find` + `erase` on a bucket: remove the first row that compares
equal (`SqlRow::operator==`) to `x`; no-op when none does. -/
def eraseFirstMatch : List SqlRow → SqlRow → List SqlRow
  | [], _ => []
  | y :: rest, x => if rowEq y x then rest else y :: eraseFirstMatch rest x

/-- `auto& v = map2_inserted[ident]; ... v.erase(it)`: `operator[]` creates an
empty bucket when the key is absent, then the first row equal to `x` is
erased from the bucket. -/
def mapClaim : List (Ident × List SqlRow) → String → SqlRow → List (Ident × List SqlRow)
  | [], k, x => [(k, eraseFirstMatch [] x)]
  | kb :: rest, k, x =>
    if kb.1 = k then (kb.1, eraseFirstMatch kb.2 x) :: rest
    else kb :: mapClaim rest k x

/-- State threaded through `compare`'s main loop: the working copy
`map2_inserted`, the delta list built so far, and the diagnostics so far. -/
def CState := List (Ident × List SqlRow) × List Delta × List Diag

/-- One iteration of `compare`'s inner loop, for row `row` of the map-1 bucket
with key `identKey`.  In pedantic mode, a missing reverse match makes the C++
call `.value()` on an empty optional while printing the diagnostic, which
throws; this is the model's only error. -/
def compareStep (cfg : Cfg) (m1 m2 : SqlMap) (identKey : String) (row : SqlRow)
    (st : CState) : Except Unit CState :=
  match st with
  | (working, ds, dg) =>
    match find_nearest cfg row m2 with
    | none => .ok (working, ds ++ [.del row], dg)
    | some nearest =>
      let pedResult : Except Unit (List Diag) :=
        if cfg.pedantic then
          match find_nearest cfg nearest m1 with
          | none => .error ()
          | some rn => if rowEq rn row then .ok dg else .ok (dg ++ [.asymmetric])
        else .ok dg
      match pedResult with
      | .error e => .error e
      | .ok dg =>
        let working := mapClaim working identKey nearest
        let ds := if rowEq nearest row then ds else ds ++ [.upd row nearest]
        .ok (working, ds, dg)

/-- `compare`'s inner loop over the rows of one map-1 bucket. -/
def compareRows (cfg : Cfg) (m1 m2 : SqlMap) (identKey : String) :
    List SqlRow → CState → Except Unit CState
  | [], st => .ok st
  | row :: rest, st =>
    match compareStep cfg m1 m2 identKey row st with
    | .error e => .error e
    | .ok st => compareRows cfg m1 m2 identKey rest st

/-- `compare`'s outer loop over the buckets of map 1. -/
def compareBuckets (cfg : Cfg) (m1 m2 : SqlMap) :
    List (Ident × List SqlRow) → CState → Except Unit CState
  | [], st => .ok st
  | kb :: rest, st =>
    match compareRows cfg m1 m2 kb.1 kb.2 st with
    | .error e => .error e
    | .ok st => compareBuckets cfg m1 m2 rest st

/-- Rows of an association map, in bucket order (`for (ident, rows) : m`). -/
def rowsOf : List (Ident × List SqlRow) → List SqlRow
  | [] => []
  | kb :: rest => kb.2 ++ rowsOf rest

/-- `compare(map1, map2)`: process every row of map 1 against map 2 starting
from a working copy of map 2's buckets, then append an `Insert` for every row
remaining in the working copy. -/
def compare (cfg : Cfg) (m1 m2 : SqlMap) : Except Unit (List Delta × List Diag) :=
  match compareBuckets cfg m1 m2 m1.buckets (m2.buckets, [], []) with
  | .error e => .error e
  | .ok (working, ds, dg) => .ok (ds ++ (rowsOf working).map Delta.ins, dg)

/-! Derived bookkeeping used to state the theorems. -/

/-- The (bucket key, row) pairs of a map, in traversal order. -/
def pairsOf : List (Ident × List SqlRow) → List (Ident × SqlRow)
  | [] => []
  | kb :: rest => kb.2.map (fun r => (kb.1, r)) ++ pairsOf rest

/-- The delta (if any) that one map-1 row contributes: its category is a
function of the row alone, because `find_nearest` always searches the
original `map2`, not the working copy. -/
def rowDelta (cfg : Cfg) (m2 : SqlMap) (row : SqlRow) : Option Delta :=
  match find_nearest cfg row m2 with
  | none => some (.del row)
  | some nearest => if rowEq nearest row then none else some (.upd row nearest)

/-- The diagnostic (if any) that one map-1 row contributes. -/
def rowDiag (cfg : Cfg) (m1 m2 : SqlMap) (row : SqlRow) : Option Diag :=
  match find_nearest cfg row m2 with
  | none => none
  | some nearest =>
    if cfg.pedantic then
      match find_nearest cfg nearest m1 with
      | none => none
      | some rn => if rowEq rn row then none else some .asymmetric
    else none

/-- The working-copy update performed for one map-1 row. -/
def claimStep (cfg : Cfg) (m2 : SqlMap) (w : List (Ident × List SqlRow))
    (p : Ident × SqlRow) : List (Ident × List SqlRow) :=
  match find_nearest cfg p.2 m2 with
  | none => w
  | some nearest => mapClaim w p.1 nearest

/-- The final working copy of map 2 after all of map 1 is processed. -/
def finalW (cfg : Cfg) (m1 m2 : SqlMap) : List (Ident × List SqlRow) :=
  (pairsOf m1.buckets).foldl (claimStep cfg m2) m2.buckets

/-- Occurrence count of a row value in a list (structural equality). -/
def countRow (r : SqlRow) (l : List SqlRow) : Nat :=
  l.countP (fun x => decide (x = r))

/-- Number of value mismatches between two value vectors, driven by the
positions of the left one (the unclipped mismatch count). -/
def mismCount : List SqlVal → List SqlVal → Nat
  | [], _ => 0
  | v :: vs, bs =>
    (if sqlValEq v (bs.headD .null) then 0 else 1) + mismCount vs bs.tail

/-- Well-formedness of a snapshot with schema `cn`, as guaranteed by
`DB::get_all`: the stored column names are `cn`, bucket keys are distinct,
and every row sits in the bucket of its own identity, carries `cn`, and has
one value per column. -/
def WF (cn : List String) (m : SqlMap) : Prop :=
  m.col_names = cn ∧ (m.buckets.map Prod.fst).Nodup ∧
    ∀ kb ∈ m.buckets, ∀ r ∈ kb.2,
      r.ident = kb.1 ∧ r.col_names = cn ∧ r.vals.length = cn.length

instance (cn : List String) (m : SqlMap) : Decidable (WF cn m) := by
  unfold WF; infer_instance

end PdgV1

namespace MainCxx

/-- Tagged SQL scalar of `src/main.cxx`: `std::variant<long, double,
std::string>` with the variant's default (exact) equality. -/
inductive MVal where
  | int : Int → MVal
  | real : ℚ → MVal
  | str : String → MVal
deriving DecidableEq

/-- A `src/main.cxx` row: the inherited value vector plus the `pdgid` key. -/
structure MRow where
  pdgid : String
  vals : List MVal
deriving DecidableEq

/-- Loop of the unclipped `SqlRow::distance`: count all mismatching columns. -/
def distFullGo : List MVal → List MVal → Nat → Nat
  | [], _, ret => ret
  | v :: vs, bs, ret =>
    distFullGo vs bs.tail (if v = bs.headD (.int 0) then ret else ret + 1)

/-- `SqlRow::distance` of `src/main.cxx`: sentinel 10000 for different
`pdgid`s, otherwise the full mismatch count. -/
def MRow.distance (a b : MRow) : Nat :=
  if a.pdgid ≠ b.pdgid then 10000
  else distFullGo a.vals b.vals 0

/-- Modulus of the 64-bit `std::size_t` arithmetic of `max_dist` and `ret`. -/
def size_t_mod : Nat := 2 ^ 64

/-- Loop of `SqlRow::distance_clipped`: count mismatches but stop scanning as
soon as the count reaches `max_dist + 1`.  Both `max_dist` and `ret` are
`size_t`, so the comparison value `max_dist + 1` wraps modulo `2 ^ 64`: at
`max_dist = SIZE_MAX` it becomes 0 and the loop breaks (returning `ret`)
whenever the running count is 0 at the end of an iteration.  (`ret` itself
cannot wrap: it grows by at most one per column and a vector with `2 ^ 64`
elements is not constructible.) -/
def distClipGo (maxDist : Nat) : List MVal → List MVal → Nat → Nat
  | [], _, ret => ret
  | v :: vs, bs, ret =>
    if v = bs.headD (.int 0) then
      if ret = (maxDist + 1) % size_t_mod then ret
      else distClipGo maxDist vs bs.tail ret
    else if ret + 1 = (maxDist + 1) % size_t_mod then ret + 1
    else distClipGo maxDist vs bs.tail (ret + 1)

/-- `SqlRow::distance_clipped` of `src/main.cxx`. -/
def MRow.distance_clipped (a b : MRow) (maxDist : Nat) : Nat :=
  if a.pdgid ≠ b.pdgid then 10000
  else distClipGo maxDist a.vals b.vals 0

end MainCxx

namespace PdgV1

lemma beq_comm_of_lawful {α : Type _} [BEq α] [LawfulBEq α] (a b : α) :
    (a == b) = (b == a) := by
  by_cases h : a = b
  · subst h; rfl
  · rw [beq_eq_false_iff_ne.mpr h, beq_eq_false_iff_ne.mpr (Ne.symm h)]

lemma isclose_refl (a : ℚ) : isclose a a = true := by
  simp only [isclose, sub_self, abs_zero, decide_eq_true_eq]
  exact le_max_right _ _

lemma isclose_symm (a b : ℚ) : isclose a b = isclose b a := by
  simp only [isclose, abs_sub_comm a b, max_comm |a| |b|]

lemma sqlValEq_refl (v : SqlVal) : sqlValEq v v = true := by
  cases v <;> simp [sqlValEq, isclose_refl]

lemma sqlValEq_symm (a b : SqlVal) : sqlValEq a b = sqlValEq b a := by
  cases a <;> cases b <;>
    simp only [sqlValEq, isclose_symm, beq_comm_of_lawful]

lemma getD_tail {α : Type _} (l : List α) (i : Nat) (d : α) :
    l.tail.getD i d = l.getD (i + 1) d := by
  cases l <;> rfl

lemma getD_zero {α : Type _} (l : List α) (d : α) : l.getD 0 d = l.headD d := by
  cases l <;> rfl

lemma distGo_self (md : Nat) :
    ∀ (vs : List SqlVal) (cs : List String), distGo md vs vs cs 0 = 0 := by
  intro vs
  induction vs with
  | nil => intro cs; rfl
  | cons v vs ih =>
    intro cs
    simp only [distGo, List.headD, sqlValEq_refl, if_true, List.tail_cons]
    rw [if_neg (by omega)]
    exact ih cs.tail

lemma distGo_symm (md : Nat) :
    ∀ (as bs : List SqlVal) (cs : List String) (ret : Nat),
      as.length = bs.length →
      distGo md as bs cs ret = distGo md bs as cs ret := by
  intro as
  induction as with
  | nil =>
    intro bs cs ret hl
    cases bs with
    | nil => rfl
    | cons b bs => simp at hl
  | cons a as ih =>
    intro bs cs ret hl
    cases bs with
    | nil => simp at hl
    | cons b bs =>
      simp only [List.length_cons, Nat.add_right_cancel_iff] at hl
      simp only [distGo, List.headD_cons, List.tail_cons]
      rw [sqlValEq_symm b a]
      by_cases he : sqlValEq a b = true
      · rw [if_pos he, if_pos he]
        by_cases hr : ret = md + 1
        · rw [if_pos hr, if_pos hr]
        · rw [if_neg hr, if_neg hr]; exact ih bs cs.tail ret hl
      · rw [if_neg he, if_neg he]
        by_cases hs : memStr (cs.headD "") strict_cols = true
        · rw [if_pos hs, if_pos hs]
        · rw [if_neg hs, if_neg hs]
          by_cases hr : ret + 1 = md + 1
          · rw [if_pos hr, if_pos hr]
          · rw [if_neg hr, if_neg hr]; exact ih bs cs.tail (ret + 1) hl

lemma mismCount_symm :
    ∀ (as bs : List SqlVal), as.length = bs.length →
      mismCount as bs = mismCount bs as := by
  intro as
  induction as with
  | nil =>
    intro bs hl
    cases bs with
    | nil => rfl
    | cons b bs => simp at hl
  | cons a as ih =>
    intro bs hl
    cases bs with
    | nil => simp at hl
    | cons b bs =>
      simp only [List.length_cons, Nat.add_right_cancel_iff] at hl
      simp only [mismCount, List.headD_cons, List.tail_cons, sqlValEq_symm b a]
      rw [ih bs hl]

lemma distGo_min (md : Nat) :
    ∀ (as bs : List SqlVal) (cs : List String) (ret : Nat),
      as.length = bs.length → ret ≤ md →
      (∀ i, i < as.length →
        sqlValEq (as.getD i .null) (bs.getD i .null) = false →
        memStr (cs.getD i "") strict_cols = false) →
      distGo md as bs cs ret = min (ret + mismCount as bs) (md + 1) := by
  intro as
  induction as with
  | nil =>
    intro bs cs ret hl hret hns
    simp only [distGo, mismCount, Nat.add_zero]
    rw [min_eq_left (by omega)]
  | cons a as ih =>
    intro bs cs ret hl hret hns
    cases bs with
    | nil => simp at hl
    | cons b bs =>
      simp only [List.length_cons, Nat.add_right_cancel_iff] at hl
      have hshift : ∀ i, i < as.length →
          sqlValEq (as.getD i .null) (bs.getD i .null) = false →
          memStr (cs.tail.getD i "") strict_cols = false := by
        intro i hi hmi
        have := hns (i + 1) (by simp; omega)
        rw [List.getD_cons_succ, List.getD_cons_succ] at this
        rw [getD_tail]
        exact this hmi
      simp only [distGo, mismCount, List.headD_cons, List.tail_cons]
      by_cases he : sqlValEq a b = true
      · rw [if_pos he, if_neg (by omega)]
        simp only [he, if_true, Nat.zero_add]
        exact ih bs cs.tail ret hl hret hshift
      · rw [if_neg he]
        have hb : sqlValEq a b = false := by
          cases h : sqlValEq a b
          · rfl
          · exact absurd h he
        have h0 := hns 0 (by simp) (by simpa [getD_zero] using hb)
        rw [getD_zero] at h0
        rw [if_neg (by rw [h0]; exact Bool.false_ne_true)]
        simp only [hb, Bool.false_eq_true, if_false]
        by_cases hr : ret + 1 = md + 1
        · rw [if_pos hr]
          rw [min_eq_right (by omega)]
          omega
        · rw [if_neg hr]
          rw [ih bs cs.tail (ret + 1) hl (by omega) hshift]
          congr 1
          omega

lemma distGo_strict (md : Nat) :
    ∀ (j : Nat) (vs bs : List SqlVal) (cs : List String),
      j < vs.length →
      (∀ i, i < j → sqlValEq (vs.getD i .null) (bs.getD i .null) = true) →
      sqlValEq (vs.getD j .null) (bs.getD j .null) = false →
      memStr (cs.getD j "") strict_cols = true →
      distGo md vs bs cs 0 = 5000 := by
  intro j
  induction j with
  | zero =>
    intro vs bs cs hj _ hm hs
    cases vs with
    | nil => simp at hj
    | cons v vs =>
      rw [getD_zero, getD_zero] at hm
      rw [getD_zero] at hs
      simp only [distGo, List.headD] at *
      rw [if_neg (by simp [hm]), if_pos hs]
  | succ j ih =>
    intro vs bs cs hj heq hm hs
    cases vs with
    | nil => simp at hj
    | cons v vs =>
      have h0 := heq 0 (by omega)
      rw [getD_zero, getD_zero] at h0
      simp only [List.headD_cons] at h0
      simp only [distGo, List.headD_cons, List.tail_cons]
      rw [if_pos h0, if_neg (by omega)]
      refine ih vs bs.tail cs.tail (by simp at hj ⊢; omega) ?_ ?_ ?_
      · intro i hi
        have := heq (i + 1) (by omega)
        rw [List.getD_cons_succ] at this
        rw [getD_tail]
        exact this
      · rw [getD_tail]
        rwa [List.getD_cons_succ] at hm
      · rw [getD_tail]
        exact hs

end PdgV1

namespace PdgV1

lemma scan_spec (md : Nat) (needle : SqlRow) :
    ∀ (rows : List SqlRow) (m : Nat) (ms : List SqlRow),
      (scanBucket md needle rows m ms).1 ≤ m ∧
      (∀ s ∈ rows, (scanBucket md needle rows m ms).1 ≤ needle.distance s md) ∧
      ((scanBucket md needle rows m ms).1 = m →
        (scanBucket md needle rows m ms).2
          = ms ++ rows.filter (fun s => needle.distance s md == m)) ∧
      ((scanBucket md needle rows m ms).1 ≠ m →
        (∃ s ∈ rows, needle.distance s md = (scanBucket md needle rows m ms).1) ∧
        (scanBucket md needle rows m ms).2
          = rows.filter (fun s => needle.distance s md == (scanBucket md needle rows m ms).1)) := by
  intro rows
  induction rows with
  | nil =>
    intro m ms
    refine ⟨le_refl _, by simp, by intro _; simp [scanBucket], fun h => absurd rfl h⟩
  | cons straw rest ih =>
    intro m ms
    by_cases h : needle.distance straw md < m
    · have hrec : scanBucket md needle (straw :: rest) m ms
          = scanBucket md needle rest (needle.distance straw md) [straw] := by
        simp only [scanBucket, if_pos h]
      obtain ⟨ih1, ih2, ih3, ih4⟩ := ih (needle.distance straw md) [straw]
      rw [hrec]
      refine ⟨by omega, ?_, ?_, ?_⟩
      · intro s hs
        rcases List.mem_cons.mp hs with rfl | hs
        · exact ih1
        · exact ih2 s hs
      · intro h3
        exact absurd h3 (by omega)
      · intro _
        by_cases hd : (scanBucket md needle rest (needle.distance straw md) [straw]).1
            = needle.distance straw md
        · refine ⟨⟨straw, List.mem_cons_self _ _, hd.symm⟩, ?_⟩
          rw [List.filter_cons]
          rw [if_pos (by simp [hd])]
          rw [ih3 hd, hd]
          rfl
        · obtain ⟨⟨s, hs, hds⟩, hfil⟩ := ih4 hd
          refine ⟨⟨s, List.mem_cons_of_mem _ hs, hds⟩, ?_⟩
          rw [List.filter_cons]
          rw [if_neg (by simp; omega)]
          exact hfil
    · by_cases hd : needle.distance straw md = m
      · have hrec : scanBucket md needle (straw :: rest) m ms
            = scanBucket md needle rest m (ms ++ [straw]) := by
          simp only [scanBucket, if_neg h, if_pos hd]
        obtain ⟨ih1, ih2, ih3, ih4⟩ := ih m (ms ++ [straw])
        rw [hrec]
        refine ⟨ih1, ?_, ?_, ?_⟩
        · intro s hs
          rcases List.mem_cons.mp hs with rfl | hs
          · omega
          · exact ih2 s hs
        · intro h3
          rw [ih3 h3, List.filter_cons, if_pos (by simp [hd])]
          simp
        · intro h4
          obtain ⟨⟨s, hs, hds⟩, hfil⟩ := ih4 h4
          refine ⟨⟨s, List.mem_cons_of_mem _ hs, hds⟩, ?_⟩
          rw [List.filter_cons, if_neg (by simp; omega)]
          exact hfil
      · have hrec : scanBucket md needle (straw :: rest) m ms
            = scanBucket md needle rest m ms := by
          simp only [scanBucket, if_neg h, if_neg hd]
        obtain ⟨ih1, ih2, ih3, ih4⟩ := ih m ms
        rw [hrec]
        refine ⟨ih1, ?_, ?_, ?_⟩
        · intro s hs
          rcases List.mem_cons.mp hs with rfl | hs
          · omega
          · exact ih2 s hs
        · intro h3
          rw [ih3 h3, List.filter_cons, if_neg (by simp; omega)]
        · intro h4
          obtain ⟨⟨s, hs, hds⟩, hfil⟩ := ih4 h4
          have hle := ih1
          refine ⟨⟨s, List.mem_cons_of_mem _ hs, hds⟩, ?_⟩
          rw [List.filter_cons, if_neg (by simp; omega)]
          exact hfil

lemma scan_final_filter (md : Nat) (needle : SqlRow) (rows : List SqlRow) :
    (scanBucket md needle rows 1000 []).1 ≠ 1000 ∨
        (scanBucket md needle rows 1000 []).1 = 1000 →
    (scanBucket md needle rows 1000 []).2
      = rows.filter
          (fun s => needle.distance s md == (scanBucket md needle rows 1000 []).1) := by
  intro _
  obtain ⟨-, -, h3, h4⟩ := scan_spec md needle rows 1000 []
  by_cases h : (scanBucket md needle rows 1000 []).1 = 1000
  · rw [h3 h, List.nil_append, h]
  · exact (h4 h).2

lemma find_nearest_some (cfg : Cfg) (needle r : SqlRow) (hay : SqlMap)
    (h : find_nearest cfg needle hay = some r) :
    ∃ bucket, mapFind? hay.buckets needle.ident = some bucket ∧
      r ∈ bucket ∧
      needle.distance r cfg.maxDist ≤ cfg.maxDist ∧
      (∀ s ∈ bucket,
        needle.distance r cfg.maxDist ≤ needle.distance s cfg.maxDist) ∧
      (bucket.filter
        (fun s => needle.distance s cfg.maxDist
          == needle.distance r cfg.maxDist)).head? = some r := by
  unfold find_nearest at h
  cases hb : mapFind? hay.buckets needle.ident with
  | none => rw [hb] at h; exact absurd h (by simp)
  | some bucket =>
    rw [hb] at h
    simp only at h
    by_cases hgt : (scanBucket cfg.maxDist needle bucket 1000 []).1 > cfg.maxDist
    · rw [if_pos hgt] at h
      exact absurd h (by simp)
    · rw [if_neg hgt] at h
      have hfil := scan_final_filter cfg.maxDist needle bucket (by tauto)
      rw [hfil] at h
      have hrmem : r ∈ bucket.filter
          (fun s => needle.distance s cfg.maxDist
            == (scanBucket cfg.maxDist needle bucket 1000 []).1) := by
        cases hf : bucket.filter
            (fun s => needle.distance s cfg.maxDist
              == (scanBucket cfg.maxDist needle bucket 1000 []).1) with
        | nil => rw [hf] at h; exact absurd h (by simp)
        | cons x xs =>
          rw [hf] at h
          simp only [List.head?_cons, Option.some.injEq] at h
          rw [← h]
          exact List.mem_cons_self _ _
      have hrd : needle.distance r cfg.maxDist
          = (scanBucket cfg.maxDist needle bucket 1000 []).1 := by
        have := List.of_mem_filter hrmem
        simpa using this
      obtain ⟨-, h2, -, -⟩ := scan_spec cfg.maxDist needle bucket 1000 []
      refine ⟨bucket, rfl, List.mem_of_mem_filter hrmem, by omega, ?_, ?_⟩
      · intro s hs
        rw [hrd]
        exact h2 s hs
      · rw [hrd]
        exact h

lemma find_nearest_isSome (cfg : Cfg) (needle s : SqlRow) (hay : SqlMap)
    (bucket : List SqlRow)
    (hb : mapFind? hay.buckets needle.ident = some bucket) (hs : s ∈ bucket)
    (hd : needle.distance s cfg.maxDist ≤ cfg.maxDist) (hmd : cfg.maxDist < 1000) :
    ∃ r, find_nearest cfg needle hay = some r := by
  obtain ⟨h1, h2, h3, h4⟩ := scan_spec cfg.maxDist needle bucket 1000 []
  have hle : (scanBucket cfg.maxDist needle bucket 1000 []).1 ≤ cfg.maxDist :=
    le_trans (h2 s hs) hd
  obtain ⟨⟨t, ht, hdt⟩, hfil⟩ := h4 (by omega)
  have htf : t ∈ bucket.filter
      (fun u => needle.distance u cfg.maxDist
        == (scanBucket cfg.maxDist needle bucket 1000 []).1) :=
    List.mem_filter.mpr ⟨ht, by simp [hdt]⟩
  unfold find_nearest
  rw [hb]
  simp only
  rw [if_neg (by omega)]
  rw [hfil]
  cases hf : bucket.filter
      (fun u => needle.distance u cfg.maxDist
        == (scanBucket cfg.maxDist needle bucket 1000 []).1) with
  | nil => rw [hf] at htf; exact absurd htf (by simp)
  | cons x xs => exact ⟨x, rfl⟩

end PdgV1

namespace PdgV1

lemma mapFind?_of_mem {m : List (Ident × List SqlRow)} {k : Ident} {v : List SqlRow}
    (hnd : (m.map Prod.fst).Nodup) (hmem : (k, v) ∈ m) :
    mapFind? m k = some v := by
  induction m with
  | nil => simp at hmem
  | cons kb rest ih =>
    simp only [List.map_cons, List.nodup_cons] at hnd
    rcases List.mem_cons.mp hmem with heq | hmem'
    · rw [← heq]
      simp [mapFind?]
    · by_cases hk : kb.1 = k
      · exfalso
        exact hnd.1 (hk ▸ List.mem_map.mpr ⟨(k, v), hmem', rfl⟩)
      · simp only [mapFind?, if_neg hk]
        exact ih hnd.2 hmem'

lemma mapFind?_mem {m : List (Ident × List SqlRow)} {k : Ident} {v : List SqlRow}
    (h : mapFind? m k = some v) : (k, v) ∈ m := by
  induction m with
  | nil => simp [mapFind?] at h
  | cons kb rest ih =>
    simp only [mapFind?] at h
    by_cases hk : kb.1 = k
    · rw [if_pos hk] at h
      have hv : kb.2 = v := by injection h
      exact List.mem_cons.mpr (Or.inl (by rw [← hk, ← hv]))
    · rw [if_neg hk] at h
      exact List.mem_cons.mpr (Or.inr (ih h))

lemma pairsOf_mem {m : List (Ident × List SqlRow)} {k : Ident} {r : SqlRow}
    (h : (k, r) ∈ pairsOf m) : ∃ b, (k, b) ∈ m ∧ r ∈ b := by
  induction m with
  | nil => simp [pairsOf] at h
  | cons kb rest ih =>
    simp only [pairsOf, List.mem_append] at h
    rcases h with h | h
    · obtain ⟨s, hs, heq⟩ := List.mem_map.mp h
      have hk : kb.1 = k := congrArg Prod.fst heq
      have hr : s = r := congrArg Prod.snd heq
      exact ⟨kb.2, List.mem_cons.mpr (Or.inl (by rw [← hk])), hr ▸ hs⟩
    · obtain ⟨b, hb, hrb⟩ := ih h
      exact ⟨b, List.mem_cons.mpr (Or.inr hb), hrb⟩

lemma mem_pairsOf {m : List (Ident × List SqlRow)} {kb : Ident × List SqlRow}
    {r : SqlRow} (hkb : kb ∈ m) (hr : r ∈ kb.2) : (kb.1, r) ∈ pairsOf m := by
  induction m with
  | nil => simp at hkb
  | cons kb0 rest ih =>
    simp only [pairsOf, List.mem_append]
    rcases List.mem_cons.mp hkb with heq | hmem
    · exact Or.inl (List.mem_map.mpr ⟨r, heq ▸ hr, by rw [heq]⟩)
    · exact Or.inr (ih hmem)

lemma toList_filterMap {α β : Type _} (f : α → Option β) (a : α) (l : List α) :
    (f a).toList ++ l.filterMap f = (a :: l).filterMap f := by
  cases h : f a <;> simp [List.filterMap_cons, h]

lemma eraseFirstMatch_sublist (v : List SqlRow) (x : SqlRow) :
    List.Sublist (eraseFirstMatch v x) v := by
  induction v with
  | nil => exact List.Sublist.refl _
  | cons y rest ih =>
    simp only [eraseFirstMatch]
    by_cases h : rowEq y x = true
    · rw [if_pos h]
      exact List.sublist_cons_self y rest
    · rw [if_neg h]
      exact List.Sublist.cons₂ y ih

lemma eraseFirstMatch_count (v : List SqlRow) (x r : SqlRow)
    (hrx : rowEq r x = false) :
    countRow r (eraseFirstMatch v x) = countRow r v := by
  induction v with
  | nil => rfl
  | cons y rest ih =>
    simp only [eraseFirstMatch]
    by_cases h : rowEq y x = true
    · rw [if_pos h]
      have hyr : y ≠ r := by
        intro he
        rw [he] at h
        rw [h] at hrx
        exact Bool.true_eq_false ▸ hrx
      simp [countRow, List.countP_cons, hyr]
    · rw [if_neg h]
      simp only [countRow, List.countP_cons] at *
      omega

lemma rowsOf_mapClaim_sublist (w : List (Ident × List SqlRow)) (k : Ident)
    (x : SqlRow) :
    List.Sublist (rowsOf (mapClaim w k x)) (rowsOf w) := by
  induction w with
  | nil =>
    simp [mapClaim, rowsOf, eraseFirstMatch]
  | cons kb rest ih =>
    simp only [mapClaim]
    by_cases h : kb.1 = k
    · rw [if_pos h]
      simp only [rowsOf]
      exact List.Sublist.append (eraseFirstMatch_sublist kb.2 x) (List.Sublist.refl _)
    · rw [if_neg h]
      simp only [rowsOf]
      exact List.Sublist.append (List.Sublist.refl _) ih

lemma rowsOf_mapClaim_count (w : List (Ident × List SqlRow)) (k : Ident)
    (x r : SqlRow) (hrx : rowEq r x = false) :
    countRow r (rowsOf (mapClaim w k x)) = countRow r (rowsOf w) := by
  induction w with
  | nil => simp [mapClaim, rowsOf, eraseFirstMatch, countRow]
  | cons kb rest ih =>
    simp only [mapClaim]
    by_cases h : kb.1 = k
    · rw [if_pos h]
      simp only [rowsOf, countRow, List.countP_append]
      rw [show List.countP (fun x_1 => decide (x_1 = r)) (eraseFirstMatch kb.2 x)
            = countRow r (eraseFirstMatch kb.2 x) from rfl,
          eraseFirstMatch_count kb.2 x r hrx]
      rfl
    · rw [if_neg h]
      simp only [rowsOf, countRow, List.countP_append] at *
      omega

lemma foldl_claimStep_sublist (cfg : Cfg) (m2 : SqlMap) :
    ∀ (ps : List (Ident × SqlRow)) (w : List (Ident × List SqlRow)),
      List.Sublist (rowsOf (ps.foldl (claimStep cfg m2) w)) (rowsOf w) := by
  intro ps
  induction ps with
  | nil => intro w; exact List.Sublist.refl _
  | cons p rest ih =>
    intro w
    rw [List.foldl_cons]
    refine List.Sublist.trans (ih (claimStep cfg m2 w p)) ?_
    unfold claimStep
    cases find_nearest cfg p.2 m2 with
    | none => exact List.Sublist.refl _
    | some nr => exact rowsOf_mapClaim_sublist w p.1 nr

lemma foldl_claimStep_count (cfg : Cfg) (m2 : SqlMap) (r : SqlRow) :
    ∀ (ps : List (Ident × SqlRow)) (w : List (Ident × List SqlRow)),
      (∀ p ∈ ps, ∀ nr, find_nearest cfg p.2 m2 = some nr → rowEq r nr = false) →
      countRow r (rowsOf (ps.foldl (claimStep cfg m2) w)) = countRow r (rowsOf w) := by
  intro ps
  induction ps with
  | nil => intro w _; rfl
  | cons p rest ih =>
    intro w hno
    rw [List.foldl_cons]
    rw [ih (claimStep cfg m2 w p) (fun q hq => hno q (List.mem_cons_of_mem _ hq))]
    unfold claimStep
    cases hf : find_nearest cfg p.2 m2 with
    | none => rfl
    | some nr =>
      exact rowsOf_mapClaim_count w p.1 nr r (hno p (List.mem_cons_self _ _) nr hf)

end PdgV1

namespace PdgV1

/-- The reverse nearest-match lookup of a matched row succeeds (so the
pedantic diagnostic can be printed without dereferencing an empty optional). -/
def RowOk (cfg : Cfg) (m1 m2 : SqlMap) (row : SqlRow) : Prop :=
  ∀ nr, find_nearest cfg row m2 = some nr → (find_nearest cfg nr m1).isSome = true

lemma compareStep_ok (cfg : Cfg) (m1 m2 : SqlMap) (k : Ident) (row : SqlRow)
    (w : List (Ident × List SqlRow)) (ds : List Delta) (dg : List Diag)
    (hok : RowOk cfg m1 m2 row) :
    compareStep cfg m1 m2 k row (w, ds, dg)
      = .ok (claimStep cfg m2 w (k, row),
             ds ++ (rowDelta cfg m2 row).toList,
             dg ++ (rowDiag cfg m1 m2 row).toList) := by
  unfold compareStep claimStep rowDelta rowDiag
  cases hf : find_nearest cfg row m2 with
  | none => simp
  | some nr =>
    obtain ⟨r2, hr2⟩ := Option.isSome_iff_exists.mp (hok nr hf)
    dsimp only
    by_cases hp : cfg.pedantic
    · rw [hr2]
      simp only [hp, if_true]
      by_cases hasym : rowEq r2 row = true
      · simp only [hasym, if_true]
        by_cases hupd : rowEq nr row = true <;> simp [hupd]
      · simp only [hasym, Bool.not_eq_true, if_neg]
        by_cases hupd : rowEq nr row = true <;> simp [hasym, hupd]
    · simp only [Bool.not_eq_true] at hp
      simp only [hp, Bool.false_eq_true, if_false]
      by_cases hupd : rowEq nr row = true <;> simp [hupd]

lemma compareRows_ok (cfg : Cfg) (m1 m2 : SqlMap) (k : Ident) :
    ∀ (rows : List SqlRow) (w : List (Ident × List SqlRow)) (ds : List Delta)
      (dg : List Diag),
      (∀ row ∈ rows, RowOk cfg m1 m2 row) →
      compareRows cfg m1 m2 k rows (w, ds, dg)
        = .ok ((rows.map (fun r => (k, r))).foldl (claimStep cfg m2) w,
               ds ++ rows.filterMap (rowDelta cfg m2),
               dg ++ rows.filterMap (rowDiag cfg m1 m2)) := by
  intro rows
  induction rows with
  | nil => intro w ds dg _; simp [compareRows]
  | cons row rest ih =>
    intro w ds dg hok
    simp only [compareRows]
    rw [compareStep_ok cfg m1 m2 k row w ds dg (hok row (List.mem_cons_self _ _))]
    simp only
    rw [ih (claimStep cfg m2 w (k, row)) (ds ++ (rowDelta cfg m2 row).toList)
          (dg ++ (rowDiag cfg m1 m2 row).toList)
          (fun q hq => hok q (List.mem_cons_of_mem _ hq))]
    rw [List.append_assoc, List.append_assoc,
        toList_filterMap (rowDelta cfg m2) row rest,
        toList_filterMap (rowDiag cfg m1 m2) row rest]
    rfl

lemma compareBuckets_ok (cfg : Cfg) (m1 m2 : SqlMap) :
    ∀ (bs : List (Ident × List SqlRow)) (w : List (Ident × List SqlRow))
      (ds : List Delta) (dg : List Diag),
      (∀ kb ∈ bs, ∀ row ∈ kb.2, RowOk cfg m1 m2 row) →
      compareBuckets cfg m1 m2 bs (w, ds, dg)
        = .ok ((pairsOf bs).foldl (claimStep cfg m2) w,
               ds ++ (pairsOf bs).filterMap (fun p => rowDelta cfg m2 p.2),
               dg ++ (pairsOf bs).filterMap (fun p => rowDiag cfg m1 m2 p.2)) := by
  intro bs
  induction bs with
  | nil => intro w ds dg _; simp [compareBuckets, pairsOf]
  | cons kb rest ih =>
    intro w ds dg hok
    simp only [compareBuckets]
    rw [compareRows_ok cfg m1 m2 kb.1 kb.2 w ds dg
          (fun row hr => hok kb (List.mem_cons_self _ _) row hr)]
    simp only
    rw [ih _ _ _ (fun kb2 hk row hr => hok kb2 (List.mem_cons_of_mem _ hk) row hr)]
    simp only [pairsOf, List.foldl_append, List.filterMap_append, List.filterMap_map]
    rw [List.append_assoc, List.append_assoc]
    rfl

/-- Characterization of `compare` on inputs where every reverse lookup of a
matched pair succeeds: the call returns normally; the delta list is, in
traversal order, the per-row delta of every map-1 row (a function of the row
alone, because `find_nearest` searches the original map 2) followed by an
`Insert` for every row left in the final working copy; the diagnostics are
the per-row asymmetric-match events. -/
lemma compare_ok (cfg : Cfg) (m1 m2 : SqlMap)
    (hok : ∀ kb ∈ m1.buckets, ∀ row ∈ kb.2, RowOk cfg m1 m2 row) :
    compare cfg m1 m2
      = .ok (((pairsOf m1.buckets).filterMap (fun p => rowDelta cfg m2 p.2))
               ++ (rowsOf (finalW cfg m1 m2)).map Delta.ins,
             (pairsOf m1.buckets).filterMap (fun p => rowDiag cfg m1 m2 p.2)) := by
  unfold compare finalW
  rw [compareBuckets_ok cfg m1 m2 m1.buckets m2.buckets [] [] hok]
  simp

lemma distance_symm_wf (md : Nat) (a b : SqlRow)
    (hl : a.vals.length = b.vals.length) (hc : a.col_names = b.col_names) :
    a.distance b md = b.distance a md := by
  unfold SqlRow.distance
  by_cases hid : a.ident = b.ident
  · rw [if_neg (by simp [hid]), if_neg (by simp [hid.symm])]
    rw [hc]
    exact distGo_symm md a.vals b.vals b.col_names 0 hl
  · rw [if_pos hid, if_pos (Ne.symm hid)]

lemma all_rows_ok (cfg : Cfg) (cn : List String) (m1 m2 : SqlMap)
    (h1 : WF cn m1) (h2 : WF cn m2) (hmd : cfg.maxDist < 1000) :
    ∀ kb ∈ m1.buckets, ∀ row ∈ kb.2, RowOk cfg m1 m2 row := by
  intro kb hkb row hrow nr hf
  obtain ⟨b2, hb2, hnr2, hdle, -, -⟩ := find_nearest_some cfg row nr m2 hf
  obtain ⟨-, hnd1, hall1⟩ := h1
  obtain ⟨-, -, hall2⟩ := h2
  obtain ⟨hid1, hcn1, hlen1⟩ := hall1 kb hkb row hrow
  obtain ⟨hid2, hcn2, hlen2⟩ := hall2 _ (mapFind?_mem hb2) nr hnr2
  have hsym : nr.distance row cfg.maxDist ≤ cfg.maxDist := by
    rw [distance_symm_wf cfg.maxDist nr row (by rw [hlen1, hlen2])
          (by rw [hcn1, hcn2])]
    exact hdle
  have hfind1 : mapFind? m1.buckets nr.ident = some kb.2 := by
    have : nr.ident = kb.1 := by rw [hid2, hid1]
    rw [this]
    exact mapFind?_of_mem hnd1 (by simpa using hkb)
  obtain ⟨r, hr⟩ := find_nearest_isSome cfg nr row m1 kb.2 hfind1 hrow hsym hmd
  rw [hr]
  rfl

end PdgV1

namespace PdgV1

lemma compareStep_ok_of_not_pedantic (cfg : Cfg) (m1 m2 : SqlMap) (k : Ident)
    (row : SqlRow) (st : CState) (hp : cfg.pedantic = false) :
    ∃ st2, compareStep cfg m1 m2 k row st = .ok st2 := by
  obtain ⟨w, ds, dg⟩ := st
  unfold compareStep
  cases find_nearest cfg row m2 with
  | none => exact ⟨_, rfl⟩
  | some nr =>
    dsimp only
    rw [hp]
    simp only [Bool.false_eq_true, if_false]
    exact ⟨_, rfl⟩

lemma compareRows_ok_of_not_pedantic (cfg : Cfg) (m1 m2 : SqlMap) (k : Ident)
    (hp : cfg.pedantic = false) :
    ∀ (rows : List SqlRow) (st : CState),
      ∃ st2, compareRows cfg m1 m2 k rows st = .ok st2 := by
  intro rows
  induction rows with
  | nil => intro st; exact ⟨st, rfl⟩
  | cons row rest ih =>
    intro st
    obtain ⟨st1, hst1⟩ := compareStep_ok_of_not_pedantic cfg m1 m2 k row st hp
    obtain ⟨st2, hst2⟩ := ih st1
    exact ⟨st2, by simp only [compareRows, hst1, hst2]⟩

lemma compareBuckets_ok_of_not_pedantic (cfg : Cfg) (m1 m2 : SqlMap)
    (hp : cfg.pedantic = false) :
    ∀ (bs : List (Ident × List SqlRow)) (st : CState),
      ∃ st2, compareBuckets cfg m1 m2 bs st = .ok st2 := by
  intro bs
  induction bs with
  | nil => intro st; exact ⟨st, rfl⟩
  | cons kb rest ih =>
    intro st
    obtain ⟨st1, hst1⟩ := compareRows_ok_of_not_pedantic cfg m1 m2 kb.1 hp kb.2 st
    obtain ⟨st2, hst2⟩ := ih st1
    exact ⟨st2, by simp only [compareBuckets, hst1, hst2]⟩

lemma compare_ok_of_not_pedantic (cfg : Cfg) (m1 m2 : SqlMap)
    (hp : cfg.pedantic = false) :
    ∃ out, compare cfg m1 m2 = .ok out := by
  obtain ⟨⟨w, ds, dg⟩, hst⟩ :=
    compareBuckets_ok_of_not_pedantic cfg m1 m2 hp m1.buckets (m2.buckets, [], [])
  exact ⟨(ds ++ (rowsOf w).map Delta.ins, dg), by simp only [compare, hst]⟩

lemma find_nearest_eta (cfg : Cfg) (p : Bool) (needle : SqlRow) (hay : SqlMap) :
    find_nearest ⟨cfg.maxDist, p⟩ needle hay = find_nearest cfg needle hay := rfl

lemma rowDelta_eta (cfg : Cfg) (p : Bool) (m2 : SqlMap) (r : SqlRow) :
    rowDelta ⟨cfg.maxDist, p⟩ m2 r = rowDelta cfg m2 r := rfl

lemma finalW_eta (cfg : Cfg) (p : Bool) (m1 m2 : SqlMap) :
    finalW ⟨cfg.maxDist, p⟩ m1 m2 = finalW cfg m1 m2 := rfl

end PdgV1

namespace MainCxx

/-- Unclipped mismatch count between two value vectors, driven by the
positions of the left one. -/
def mcount : List MVal → List MVal → Nat
  | [], _ => 0
  | v :: vs, bs => (if v = bs.headD (.int 0) then 0 else 1) + mcount vs bs.tail

lemma distFullGo_spec :
    ∀ (as bs : List MVal) (ret : Nat), distFullGo as bs ret = ret + mcount as bs := by
  intro as
  induction as with
  | nil => intro bs ret; simp [distFullGo, mcount]
  | cons a as ih =>
    intro bs ret
    simp only [distFullGo, mcount]
    by_cases h : a = bs.headD (.int 0)
    · rw [if_pos h, if_pos h, ih]
      omega
    · rw [if_neg h, if_neg h, ih]
      omega

lemma distClipGo_spec (md : Nat) (hmod : md + 1 < size_t_mod) :
    ∀ (as bs : List MVal) (ret : Nat), ret ≤ md →
      distClipGo md as bs ret = min (ret + mcount as bs) (md + 1) := by
  have hwrap : (md + 1) % size_t_mod = md + 1 := Nat.mod_eq_of_lt hmod
  intro as
  induction as with
  | nil =>
    intro bs ret hret
    simp only [distClipGo, mcount, Nat.add_zero]
    rw [min_eq_left (by omega)]
  | cons a as ih =>
    intro bs ret hret
    simp only [distClipGo, mcount, hwrap]
    by_cases h : a = bs.headD (.int 0)
    · rw [if_pos h, if_pos h, if_neg (by omega), ih bs.tail ret hret]
      simp
    · rw [if_neg h, if_neg h]
      by_cases hr : ret + 1 = md + 1
      · rw [if_pos hr, min_eq_right (by omega)]
        omega
      · rw [if_neg hr, ih bs.tail (ret + 1) (by omega)]
        congr 1
        omega

/-- Rows whose first column matches and whose second differs, for the
`SIZE_MAX` counterexample. -/
def r7ca : MRow := ⟨"X", [.int 1, .int 2]⟩

def r7cb : MRow := ⟨"X", [.int 1, .int 3]⟩

/-- C7 counterexample: at `max_dist = SIZE_MAX` (reachable via
`--max-dist -1`, since the parsed `int` is converted to `size_t`), the break
test `ret == max_dist + 1` wraps to `ret == 0`, so after the leading equal
column `distance_clipped` returns 0 while `distance` returns the full count 1
— although `distance(a, b) ≤ maxDist`, the two functions disagree, refuting
the claim's "any maxDist". -/
theorem c7_early_exit_counterexample :
    r7ca.pdgid = r7cb.pdgid ∧ r7ca.vals.length = r7cb.vals.length ∧
    MRow.distance r7ca r7cb = 1 ∧
    MRow.distance r7ca r7cb ≤ 18446744073709551615 ∧
    MRow.distance_clipped r7ca r7cb 18446744073709551615 = 0 := by
  refine ⟨by decide, by decide, by decide, by decide, by decide⟩

/-- C7 (amended): early-exit refinement between `src/main.cxx`'s `distance`
and `distance_clipped`.  For rows with equal identity and equal length and
any `maxDist` whose successor does not overflow `size_t` (every `maxDist`
below `SIZE_MAX`, in particular every realistic threshold), the clipped
distance exceeds `maxDist` exactly when the full distance does, and below the
threshold the two functions agree. -/
theorem c7_early_exit_refinement (a b : MRow) (md : Nat)
    (hid : a.pdgid = b.pdgid) (hl : a.vals.length = b.vals.length)
    (hmod : md + 1 < size_t_mod) :
    (MRow.distance_clipped a b md > md ↔ MRow.distance a b > md) ∧
    (MRow.distance a b ≤ md → MRow.distance_clipped a b md = MRow.distance a b) := by
  unfold MRow.distance MRow.distance_clipped
  rw [if_neg (by simp [hid]), if_neg (by simp [hid])]
  rw [distClipGo_spec md hmod a.vals b.vals 0 (Nat.zero_le md),
      distFullGo_spec a.vals b.vals 0]
  simp only [Nat.zero_add]
  constructor
  · rw [Nat.min_def]
    split <;> omega
  · intro hle
    rw [Nat.min_def]
    split <;> omega

/-- Concrete rows exercising the early-exit refinement. -/
def r7a : MRow := ⟨"X", [.int 1, .int 2, .int 3]⟩

def r7b : MRow := ⟨"X", [.int 4, .int 5, .int 6]⟩

/-- C7 witness: the refinement instantiated at rows with three mismatching
columns and threshold 1 (clipped distance 2, full distance 3). -/
theorem c7_early_exit_refinement_witness :
    r7a.pdgid = r7b.pdgid ∧ r7a.vals.length = r7b.vals.length ∧
    ((MRow.distance_clipped r7a r7b 1 > 1 ↔ MRow.distance r7a r7b > 1) ∧
      (MRow.distance r7a r7b ≤ 1 →
        MRow.distance_clipped r7a r7b 1 = MRow.distance r7a r7b)) :=
  ⟨by decide, by decide,
    c7_early_exit_refinement r7a r7b 1 (by decide) (by decide) (by decide)⟩

end MainCxx

namespace PdgV1

/-- Concrete rows and snapshots used by the witnesses and counterexamples. -/
def exRowA : SqlRow := ⟨"X", ["c"], [.int 1]⟩

def exRowB : SqlRow := ⟨"X", ["c"], [.int 2]⟩

def exMap1 : SqlMap := ⟨[("X", [exRowA, exRowB])], ["c"]⟩

def exMap2 : SqlMap := ⟨[("X", [exRowA])], ["c"]⟩

def s4RowA : SqlRow := ⟨"X", ["value_type"], [.str "a"]⟩

def s4RowB : SqlRow := ⟨"X", ["value_type"], [.str "b"]⟩

def s4Hay : SqlMap := ⟨[("X", [s4RowB])], ["value_type"]⟩

/-! Refined value model for the Float edge cases of `SqlRow::distance`.
The plain model above renders C++ `double` as `ℚ`, which has no infinities
and no NaN; but a SQLite `REAL` can hold ±Inf (e.g. storing `9e999`), and at
such values IEEE arithmetic makes `fabs(a - a)` NaN, so `isclose(a, a)` is
false.  `DblVal` refines the double to a finite value (kept exact, rounding
idealized), a signed infinity, or NaN, with the IEEE-754 propagation rules
for the operations `isclose` uses; `SqlRowD.distance` is the same
`SqlRow::distance` embedding over the refined scalars. -/

/-- A C++ `double` for the edge-case analysis: finite (exact value), ±Inf
(`true` = positive), or NaN. -/
inductive DblVal where
  | fin : ℚ → DblVal
  | inf : Bool → DblVal
  | nan : DblVal
deriving DecidableEq

/-- IEEE `fabs`. -/
def dabs : DblVal → DblVal
  | .fin q => .fin |q|
  | .inf _ => .inf true
  | .nan => .nan

/-- IEEE subtraction: NaN propagates, `Inf - Inf` of equal signs is NaN,
finite subtraction is exact. -/
def dsub : DblVal → DblVal → DblVal
  | .nan, _ => .nan
  | _, .nan => .nan
  | .inf s, .inf t => if s = t then .nan else .inf s
  | .inf s, .fin _ => .inf s
  | .fin _, .inf t => .inf !t
  | .fin a, .fin b => .fin (a - b)

/-- IEEE multiplication: NaN propagates, `0 * Inf` is NaN, signs multiply. -/
def dmul : DblVal → DblVal → DblVal
  | .nan, _ => .nan
  | _, .nan => .nan
  | .fin a, .fin b => .fin (a * b)
  | .fin a, .inf t => if a = 0 then .nan else if 0 < a then .inf t else .inf !t
  | .inf s, .fin b => if b = 0 then .nan else if 0 < b then .inf s else .inf !s
  | .inf s, .inf t => .inf (s == t)

/-- IEEE `<`: false whenever either operand is NaN. -/
def dlt (a b : DblVal) : Bool :=
  match a with
  | .nan => false
  | .fin x =>
    match b with
    | .nan => false
    | .fin y => decide (x < y)
    | .inf t => t
  | .inf s =>
    match b with
    | .nan => false
    | .fin _ => !s
    | .inf t => !s && t

/-- `std::max(a, b)`, defined as `(a < b) ? b : a`. -/
def dmax (a b : DblVal) : DblVal := if dlt a b then b else a

/-- IEEE `<=`: false whenever either operand is NaN. -/
def dle (a b : DblVal) : Bool :=
  match a with
  | .nan => false
  | .fin x =>
    match b with
    | .nan => false
    | .fin y => decide (x ≤ y)
    | .inf t => t
  | .inf s =>
    match b with
    | .nan => false
    | .fin _ => !s
    | .inf t => !s || t

/-- `isclose` over the refined doubles, operation for operation:
`fabs(a - b) <= max(rel_tol * max(fabs(a), fabs(b)), abs_tol)` with
`rel_tol = 1e-6`, `abs_tol = 0.0`. -/
def iscloseD (a b : DblVal) : Bool :=
  dle (dabs (dsub a b))
    (dmax (dmul (.fin (1 / 1000000)) (dmax (dabs a) (dabs b))) (.fin 0))

/-- `SqlVal` with the refined double. -/
inductive SqlValD where
  | null : SqlValD
  | int : Int → SqlValD
  | real : DblVal → SqlValD
  | str : String → SqlValD
deriving DecidableEq

/-- `operator==(SqlVal, SqlVal)` over the refined values. -/
def sqlValEqD : SqlValD → SqlValD → Bool
  | .null, .null => true
  | .int a, .int b => a == b
  | .real a, .real b => iscloseD a b
  | .str a, .str b => a == b
  | _, _ => false

/-- A row over the refined values. -/
structure SqlRowD where
  ident : String
  col_names : List String
  vals : List SqlValD
deriving DecidableEq

/-- Loop of `SqlRow::distance` over the refined values (same structure as
`distGo`). -/
def distGoD (maxDist : Nat) : List SqlValD → List SqlValD → List String → Nat → Nat
  | [], _, _, ret => ret
  | v :: vs, bs, cs, ret =>
    if sqlValEqD v (bs.headD .null) then
      if ret = maxDist + 1 then ret else distGoD maxDist vs bs.tail cs.tail ret
    else if memStr (cs.headD "") strict_cols then 5000
    else if ret + 1 = maxDist + 1 then ret + 1
    else distGoD maxDist vs bs.tail cs.tail (ret + 1)

/-- `SqlRow::distance` over the refined values. -/
def SqlRowD.distance (a b : SqlRowD) (maxDist : Nat) : Nat :=
  if a.ident ≠ b.ident then 10000
  else distGoD maxDist a.vals b.vals a.col_names 0

/-- A value with no Float special case: not an infinity and not NaN. -/
def isFiniteVal : SqlValD → Bool
  | .real (.inf _) => false
  | .real .nan => false
  | _ => true

lemma iscloseD_fin_refl (q : ℚ) : iscloseD (DblVal.fin q) (DblVal.fin q) = true := by
  have hnn : 0 ≤ (1 / 1000000 : ℚ) * |q| := by positivity
  simp only [iscloseD, dsub, sub_self, dabs, abs_zero, dmul, dmax, dlt, ite_self]
  rw [if_neg (by simp only [decide_eq_true_eq]; exact not_lt.mpr hnn)]
  simp only [dle, decide_eq_true_eq]
  exact hnn

lemma sqlValEqD_refl_of_finite (v : SqlValD) (h : isFiniteVal v = true) :
    sqlValEqD v v = true := by
  cases v with
  | null => rfl
  | int a => simp [sqlValEqD]
  | str s => simp [sqlValEqD]
  | real d =>
    cases d with
    | fin q => simpa [sqlValEqD] using iscloseD_fin_refl q
    | inf s => simp [isFiniteVal] at h
    | nan => simp [isFiniteVal] at h

lemma distGoD_self_of_finite (md : Nat) :
    ∀ (vs : List SqlValD) (cs : List String),
      (∀ v ∈ vs, isFiniteVal v = true) →
      distGoD md vs vs cs 0 = 0 := by
  intro vs
  induction vs with
  | nil => intro cs _; rfl
  | cons v vs ih =>
    intro cs hfin
    simp only [distGoD, List.headD_cons, List.tail_cons,
      sqlValEqD_refl_of_finite v (hfin v (List.mem_cons_self _ _)), if_true]
    rw [if_neg (by omega)]
    exact ih cs.tail (fun u hu => hfin u (List.mem_cons_of_mem _ hu))

/-- A row holding positive infinity (storable in a SQLite `REAL`). -/
def infRow : SqlRowD := ⟨"X", ["c"], [.real (.inf true)]⟩

/-- A row holding NaN. -/
def nanRow : SqlRowD := ⟨"X", ["c"], [.real .nan]⟩

/-- C5 counterexample: under IEEE double semantics, a row holding ±Inf (or
NaN) has `fabs(a - a)` NaN at that position, `isclose(a, a)` is false, and
`distance(a, a) = 1`, not 0 — refuting reflexivity for arbitrary Float
values. -/
theorem c5_zero_distance_counterexample :
    SqlRowD.distance infRow infRow 3 = 1 ∧
    SqlRowD.distance infRow infRow 3 ≠ 0 ∧
    SqlRowD.distance nanRow nanRow 3 = 1 := by
  refine ⟨by decide, by decide, by decide⟩

/-- C5 (amended): zero distance reflexivity for rows without Float special
values.  For every row all of whose values are finite (no ±Inf, no NaN —
any identity, any value sequence otherwise, finite Floats compare by
`isclose`) and every threshold, `distance(a, a) = 0`. -/
theorem c5_zero_distance_reflexive (a : SqlRowD) (md : Nat)
    (hfin : ∀ v ∈ a.vals, isFiniteVal v = true) :
    SqlRowD.distance a a md = 0 := by
  unfold SqlRowD.distance
  rw [if_neg (by simp)]
  exact distGoD_self_of_finite md a.vals a.col_names hfin

/-- A row of ordinary finite values, Float included. -/
def finRow : SqlRowD := ⟨"X", ["c", "d"], [.real (.fin (314159 / 100000)), .int 2]⟩

/-- C5 witness: reflexivity at a concrete row holding a finite Float. -/
theorem c5_zero_distance_reflexive_witness :
    (∀ v ∈ finRow.vals, isFiniteVal v = true) ∧
    SqlRowD.distance finRow finRow 3 = 0 :=
  ⟨by decide, c5_zero_distance_reflexive finRow 3 (by decide)⟩

/-- C6: distance symmetry.  For rows with equal identity, equal value-sequence
length, and no strict column at any differing position (on either row's
column names), `distance(a, b) = distance(b, a)`. -/
theorem c6_distance_symmetric (a b : SqlRow) (md : Nat)
    (hid : a.ident = b.ident) (hl : a.vals.length = b.vals.length)
    (hstrict : ∀ i, i < a.vals.length →
      sqlValEq (a.vals.getD i .null) (b.vals.getD i .null) = false →
      memStr (a.col_names.getD i "") strict_cols = false ∧
      memStr (b.col_names.getD i "") strict_cols = false) :
    a.distance b md = b.distance a md := by
  unfold SqlRow.distance
  rw [if_neg (by simp [hid]), if_neg (by simp [hid])]
  rw [distGo_min md a.vals b.vals a.col_names 0 hl (Nat.zero_le md)
        (fun i hi hm => (hstrict i hi hm).1)]
  rw [distGo_min md b.vals a.vals b.col_names 0 hl.symm (Nat.zero_le md)
        (fun i hi hm => (hstrict i (by omega)
          (by rw [sqlValEq_symm]; exact hm)).2)]
  rw [mismCount_symm a.vals b.vals hl]

/-- C6 witness: symmetry at two concrete same-identity rows differing in
their single non-strict column. -/
theorem c6_distance_symmetric_witness :
    exRowA.ident = exRowB.ident ∧ exRowA.vals.length = exRowB.vals.length ∧
    exRowA.distance exRowB 3 = exRowB.distance exRowA 3 :=
  ⟨by decide, by decide,
    c6_distance_symmetric exRowA exRowB 3 (by decide) (by decide) (by decide)⟩

/-- C4: strict column veto.  If two same-identity, same-length rows agree
everywhere except at one position whose column name is strict, their distance
is the strict sentinel 5000; hence for any threshold below 5000,
`find_nearest` never selects one as the match for the other, whatever the
haystack and the pedantic flag. -/
theorem c4_strict_column_veto (a b : SqlRow) (md j : Nat)
    (hid : a.ident = b.ident) (hl : a.vals.length = b.vals.length)
    (hj : j < a.vals.length)
    (hagree : ∀ i, i < a.vals.length → i ≠ j →
      sqlValEq (a.vals.getD i .null) (b.vals.getD i .null) = true)
    (hdiff : sqlValEq (a.vals.getD j .null) (b.vals.getD j .null) = false)
    (hstrict : memStr (a.col_names.getD j "") strict_cols = true)
    (hmd : md < 5000) :
    a.distance b md = 5000 ∧
      ∀ (ped : Bool) (hay : SqlMap), find_nearest ⟨md, ped⟩ a hay ≠ some b := by
  have hdist : a.distance b md = 5000 := by
    unfold SqlRow.distance
    rw [if_neg (by simp [hid])]
    exact distGo_strict md j a.vals b.vals a.col_names hj
      (fun i hi => hagree i (lt_trans hi hj) (by omega)) hdiff hstrict
  refine ⟨hdist, ?_⟩
  intro ped hay hsome
  obtain ⟨bucket, -, -, hdle, -, -⟩ := find_nearest_some ⟨md, ped⟩ a b hay hsome
  have hdle2 : a.distance b md ≤ md := hdle
  rw [hdist] at hdle2
  omega

/-- C4 witness: the veto at concrete rows differing only on the strict
`value_type` column, threshold 3, against a haystack holding the would-be
match. -/
theorem c4_strict_column_veto_witness :
    s4RowA.distance s4RowB 3 = 5000 ∧
    find_nearest ⟨3, false⟩ s4RowA s4Hay ≠ some s4RowB := by
  have h := c4_strict_column_veto s4RowA s4RowB 3 0 (by decide) (by decide)
    (by decide)
    (by intro i hi hne
        exact absurd (by simp [s4RowA] at hi; omega : i = 0) hne)
    (by decide) (by decide) (by decide)
  exact ⟨h.1, h.2 false s4Hay⟩

/-- C9: implicit safety of `*matches[0]`.  With the threshold below the
initial running minimum 1000, whenever the scan's final minimum passes the
`min_dist > settings::max_dist` guard (so the dereference is reached), the
list of recorded candidates is non-empty. -/
theorem c9_match_list_access_safe (md : Nat) (needle : SqlRow)
    (bucket : List SqlRow) (hmd : md < 1000)
    (hreach : (scanBucket md needle bucket 1000 []).1 ≤ md) :
    (scanBucket md needle bucket 1000 []).2 ≠ [] := by
  obtain ⟨-, -, -, h4⟩ := scan_spec md needle bucket 1000 []
  obtain ⟨⟨s, hs, hds⟩, hfil⟩ := h4 (by omega)
  rw [hfil]
  intro hnil
  have hmem : s ∈ bucket.filter
      (fun u => needle.distance u md == (scanBucket md needle bucket 1000 []).1) :=
    List.mem_filter.mpr ⟨hs, by simp [hds]⟩
  rw [hnil] at hmem
  simp at hmem

/-- C9 witness: safety instantiated at a singleton bucket containing an exact
match, threshold 3. -/
theorem c9_match_list_access_safe_witness :
    (3 : Nat) < 1000 ∧ (scanBucket 3 exRowA [exRowA] 1000 []).1 ≤ 3 ∧
    (scanBucket 3 exRowA [exRowA] 1000 []).2 ≠ [] :=
  ⟨by decide, by decide,
    c9_match_list_access_safe 3 exRowA [exRowA] (by decide) (by decide)⟩

/-- C10: deterministic tie-break.  Whenever `find_nearest` returns a match,
the returned row lies in the needle's identity bucket, achieves the minimum
distance over the bucket, lies within the threshold, and is the first row in
bucket storage order among the candidates achieving that minimum (the head of
the bucket filtered to the minimum distance); the result is a function of the
needle, the haystack (bucket order included) and `maxDist` alone. -/
theorem c10_deterministic_tiebreak (cfg : Cfg) (needle r : SqlRow)
    (hay : SqlMap) (h : find_nearest cfg needle hay = some r) :
    ∃ bucket, mapFind? hay.buckets needle.ident = some bucket ∧ r ∈ bucket ∧
      needle.distance r cfg.maxDist ≤ cfg.maxDist ∧
      (∀ s ∈ bucket,
        needle.distance r cfg.maxDist ≤ needle.distance s cfg.maxDist) ∧
      (bucket.filter (fun s =>
        needle.distance s cfg.maxDist == needle.distance r cfg.maxDist)).head?
        = some r :=
  find_nearest_some cfg needle r hay h

/-- C10 witness: the tie-break characterization at a concrete lookup that
returns a match. -/
theorem c10_deterministic_tiebreak_witness :
    find_nearest ⟨1, false⟩ exRowB exMap2 = some exRowA ∧
    ∃ bucket, mapFind? exMap2.buckets exRowB.ident = some bucket ∧
      exRowA ∈ bucket ∧
      exRowB.distance exRowA 1 ≤ 1 ∧
      (∀ s ∈ bucket, exRowB.distance exRowA 1 ≤ exRowB.distance s 1) ∧
      (bucket.filter (fun s =>
        exRowB.distance s 1 == exRowB.distance exRowA 1)).head? = some exRowA :=
  ⟨by decide, c10_deterministic_tiebreak ⟨1, false⟩ exRowB exRowA exMap2 (by decide)⟩

end PdgV1

namespace PdgV1

/-- Rows of snapshot 1 represented in a delta list: the row of every
`Delete` and the old row of every `Update`. -/
def delOldRows (ds : List Delta) : List SqlRow :=
  ds.filterMap (fun d => match d with
    | .del r => some r
    | .upd r _ => some r
    | .ins _ => none)

/-- Rows of snapshot 2 appearing as the new side of an `Update`. -/
def updNewRows (ds : List Delta) : List SqlRow :=
  ds.filterMap (fun d => match d with
    | .upd _ r => some r
    | _ => none)

/-- Asymmetric-match scenario: both map-1 rows are within distance 1 of the
single map-2 row, so both claim it; the reverse lookup from that row returns
the first map-1 row, which is not the second one. -/
def wRowA : SqlRow := ⟨"X", ["u", "v"], [.str "1", .str "2"]⟩

def wRowB : SqlRow := ⟨"X", ["u", "v"], [.str "9", .str "8"]⟩

def wRowC : SqlRow := ⟨"X", ["u", "v"], [.str "9", .str "2"]⟩

def wMap1 : SqlMap := ⟨[("X", [wRowA, wRowB])], ["u", "v"]⟩

def wMap2 : SqlMap := ⟨[("X", [wRowC])], ["u", "v"]⟩

/-- C1 counterexample.  First input: snapshot 1 = {(X,[1]), (X,[2])},
snapshot 2 = {(X,[1])}, `maxDist` 1.  Row (X,[1]) of snapshot 1 is matched
identically (emitting nothing), so it appears in neither `Delete` nor
`Update.old` — not in exactly one of them as claimed.  Second input: both
rows of `wMap1` claim the single row `wRowC` of snapshot 2 (`find_nearest`
searches the original map 2, not the working copy), so `wRowC` occurs twice
among `Update.new` although snapshot 2 holds it once — a duplication. -/
theorem c1_partition_counterexample :
    (compare ⟨1, false⟩ exMap1 exMap2 = .ok ([Delta.upd exRowB exRowA], []) ∧
      exRowA ∈ rowsOf exMap1.buckets ∧
      countRow exRowA (delOldRows [Delta.upd exRowB exRowA]) = 0) ∧
    (compare ⟨1, false⟩ wMap1 wMap2
        = .ok ([Delta.upd wRowA wRowC, Delta.upd wRowB wRowC], []) ∧
      countRow wRowC (rowsOf wMap2.buckets) = 1 ∧
      countRow wRowC (updNewRows [Delta.upd wRowA wRowC, Delta.upd wRowB wRowC])
        = 2) := by
  refine ⟨⟨by decide, by decide, by decide⟩, by decide, by decide, by decide⟩

/-- C1 (amended): partition characterization of `compare` on well-formed
snapshots with `maxDist` below 1000.  The delta list is exactly, in traversal
order: per row of snapshot 1, one of `Delete`, `Update` with that row as the
old side, or nothing when `find_nearest` (run against the original snapshot 2)
returns a row equal to it; followed by one `Insert` per row remaining in the
final working copy.  The inserted rows are a subsequence of snapshot 2's rows
(no row is inserted twice or invented), and every snapshot-2 occurrence
missing from the inserts was claimed as the nearest match of at least one
snapshot-1 row — but a single snapshot-2 row may be claimed by several
snapshot-1 rows, so it may appear in more than one `Update.new`. -/
theorem c1_partition_amended (cn : List String) (cfg : Cfg) (m1 m2 : SqlMap)
    (h1 : WF cn m1) (h2 : WF cn m2) (hmd : cfg.maxDist < 1000) :
    ∃ dg,
      compare cfg m1 m2
        = .ok ((pairsOf m1.buckets).filterMap (fun p => rowDelta cfg m2 p.2)
                 ++ (rowsOf (finalW cfg m1 m2)).map Delta.ins, dg) ∧
      List.Sublist (rowsOf (finalW cfg m1 m2)) (rowsOf m2.buckets) ∧
      ∀ r : SqlRow,
        countRow r (rowsOf (finalW cfg m1 m2)) < countRow r (rowsOf m2.buckets) →
        ∃ p ∈ pairsOf m1.buckets, ∃ nr,
          find_nearest cfg p.2 m2 = some nr ∧ rowEq r nr = true := by
  have hok := all_rows_ok cfg cn m1 m2 h1 h2 hmd
  refine ⟨_, compare_ok cfg m1 m2 hok, ?_, ?_⟩
  · exact foldl_claimStep_sublist cfg m2 (pairsOf m1.buckets) m2.buckets
  · intro r hlt
    by_contra hno
    push_neg at hno
    have heq := foldl_claimStep_count cfg m2 r (pairsOf m1.buckets) m2.buckets
      (fun p hp nr hf => by
        cases hbe : rowEq r nr with
        | false => rfl
        | true => exact absurd hbe (hno p hp nr hf))
    unfold finalW at hlt
    omega

/-- C1 witness: the amended partition at the concrete counterexample input. -/
theorem c1_partition_amended_witness :
    WF ["c"] exMap1 ∧ WF ["c"] exMap2 ∧
    ∃ dg,
      compare ⟨1, false⟩ exMap1 exMap2
        = .ok ((pairsOf exMap1.buckets).filterMap
                 (fun p => rowDelta ⟨1, false⟩ exMap2 p.2)
               ++ (rowsOf (finalW ⟨1, false⟩ exMap1 exMap2)).map Delta.ins, dg) ∧
      List.Sublist (rowsOf (finalW ⟨1, false⟩ exMap1 exMap2))
        (rowsOf exMap2.buckets) ∧
      ∀ r : SqlRow,
        countRow r (rowsOf (finalW ⟨1, false⟩ exMap1 exMap2))
            < countRow r (rowsOf exMap2.buckets) →
        ∃ p ∈ pairsOf exMap1.buckets, ∃ nr,
          find_nearest ⟨1, false⟩ p.2 exMap2 = some nr ∧ rowEq r nr = true :=
  ⟨by decide, by decide,
    c1_partition_amended ["c"] ⟨1, false⟩ exMap1 exMap2 (by decide) (by decide)
      (by decide)⟩

/-- C3: pedantic-mode noninterference.  On well-formed snapshots with
`maxDist` below 1000, `compare` with `pedantic = true` returns exactly the
delta list of `compare` with `pedantic = false` (only the diagnostics may
differ), and `find_nearest` chooses the same candidate under either flag. -/
theorem c3_pedantic_noninterference (cn : List String) (md : Nat)
    (m1 m2 : SqlMap) (h1 : WF cn m1) (h2 : WF cn m2) (hmd : md < 1000) :
    (∃ ds dgT dgF, compare ⟨md, true⟩ m1 m2 = .ok (ds, dgT) ∧
      compare ⟨md, false⟩ m1 m2 = .ok (ds, dgF)) ∧
    ∀ (needle : SqlRow) (hay : SqlMap),
      find_nearest ⟨md, true⟩ needle hay = find_nearest ⟨md, false⟩ needle hay := by
  have hokT := all_rows_ok ⟨md, true⟩ cn m1 m2 h1 h2 hmd
  have hokF := all_rows_ok ⟨md, false⟩ cn m1 m2 h1 h2 hmd
  have hT := compare_ok ⟨md, true⟩ m1 m2 hokT
  have hF := compare_ok ⟨md, false⟩ m1 m2 hokF
  have hsame : (pairsOf m1.buckets).filterMap
        (fun p => rowDelta ⟨md, false⟩ m2 p.2)
      ++ (rowsOf (finalW ⟨md, false⟩ m1 m2)).map Delta.ins
      = (pairsOf m1.buckets).filterMap (fun p => rowDelta ⟨md, true⟩ m2 p.2)
      ++ (rowsOf (finalW ⟨md, true⟩ m1 m2)).map Delta.ins := rfl
  rw [hsame] at hF
  exact ⟨⟨_, _, _, hT, hF⟩, fun needle hay => rfl⟩

/-- C3 witness: noninterference at the concrete asymmetric-match scenario
(where pedantic mode does emit a diagnostic). -/
theorem c3_pedantic_noninterference_witness :
    WF ["u", "v"] wMap1 ∧ WF ["u", "v"] wMap2 ∧
    ((∃ ds dgT dgF, compare ⟨1, true⟩ wMap1 wMap2 = .ok (ds, dgT) ∧
        compare ⟨1, false⟩ wMap1 wMap2 = .ok (ds, dgF)) ∧
      ∀ (needle : SqlRow) (hay : SqlMap),
        find_nearest ⟨1, true⟩ needle hay = find_nearest ⟨1, false⟩ needle hay) :=
  ⟨by decide, by decide,
    c3_pedantic_noninterference ["u", "v"] 1 wMap1 wMap2 (by decide) (by decide)
      (by decide)⟩

/-- C2: asymmetric matches are non-fatal.  In pedantic mode on well-formed
snapshots (threshold below 1000), whenever a matched pair's reverse lookup
returns nothing or a row other than the original (the former is in fact
impossible on such inputs, which is what keeps the C++ `.value()` call from
throwing), `compare` still returns normally, the asymmetric-match diagnostic
is emitted, and the delta list is the one produced with `pedantic = false`. -/
theorem c2_asymmetric_match_nonfatal (cn : List String) (cfg : Cfg)
    (m1 m2 : SqlMap) (k : Ident) (row nr : SqlRow)
    (h1 : WF cn m1) (h2 : WF cn m2) (hmd : cfg.maxDist < 1000)
    (hped : cfg.pedantic = true)
    (hmem : (k, row) ∈ pairsOf m1.buckets)
    (hfwd : find_nearest cfg row m2 = some nr)
    (hasym : find_nearest cfg nr m1 = none ∨
      ∃ r2, find_nearest cfg nr m1 = some r2 ∧ rowEq r2 row = false) :
    ∃ ds dg dg2, compare cfg m1 m2 = .ok (ds, dg) ∧ Diag.asymmetric ∈ dg ∧
      compare ⟨cfg.maxDist, false⟩ m1 m2 = .ok (ds, dg2) := by
  have hok := all_rows_ok cfg cn m1 m2 h1 h2 hmd
  have hokF := all_rows_ok ⟨cfg.maxDist, false⟩ cn m1 m2 h1 h2 hmd
  obtain ⟨b1, hb1, hrb⟩ := pairsOf_mem hmem
  have hrowok : RowOk cfg m1 m2 row := hok (k, b1) hb1 row hrb
  obtain ⟨r2, hr2, hr2ne⟩ : ∃ r2, find_nearest cfg nr m1 = some r2 ∧
      rowEq r2 row = false := by
    rcases hasym with hnone | h
    · have := hrowok nr hfwd
      rw [hnone] at this
      exact absurd this (by simp)
    · exact h
  have hT := compare_ok cfg m1 m2 hok
  have hF := compare_ok ⟨cfg.maxDist, false⟩ m1 m2 hokF
  have hsame : (pairsOf m1.buckets).filterMap
        (fun p => rowDelta ⟨cfg.maxDist, false⟩ m2 p.2)
      ++ (rowsOf (finalW ⟨cfg.maxDist, false⟩ m1 m2)).map Delta.ins
      = (pairsOf m1.buckets).filterMap (fun p => rowDelta cfg m2 p.2)
      ++ (rowsOf (finalW cfg m1 m2)).map Delta.ins := rfl
  rw [hsame] at hF
  refine ⟨_, _, _, hT, ?_, hF⟩
  apply List.mem_filterMap.mpr
  refine ⟨(k, row), hmem, ?_⟩
  simp [rowDiag, hfwd, hped, hr2, hr2ne]

/-- C2 witness: the concrete asymmetric scenario — `wRowB` matches `wRowC`
but the reverse lookup from `wRowC` returns `wRowA`. -/
theorem c2_asymmetric_match_nonfatal_witness :
    find_nearest ⟨1, true⟩ wRowB wMap2 = some wRowC ∧
    find_nearest ⟨1, true⟩ wRowC wMap1 = some wRowA ∧
    ∃ ds dg dg2, compare ⟨1, true⟩ wMap1 wMap2 = .ok (ds, dg) ∧
      Diag.asymmetric ∈ dg ∧
      compare ⟨1, false⟩ wMap1 wMap2 = .ok (ds, dg2) :=
  ⟨by decide, by decide,
    c2_asymmetric_match_nonfatal ["u", "v"] ⟨1, true⟩ wMap1 wMap2 "X" wRowB wRowC
      (by decide) (by decide) (by decide) rfl (by decide) (by decide)
      (Or.inr ⟨wRowA, by decide, by decide⟩)⟩

/-- Mismatched-schema scenario for C8: the snapshots' column-name sequences
differ (["a"] against ["a", "b"]), yet every row is well formed with respect
to its own snapshot. -/
def c8Row1 : SqlRow := ⟨"X", ["a"], [.int 1]⟩

def c8Row2 : SqlRow := ⟨"X", ["a", "b"], [.int 1, .int 2]⟩

def c8Map1 : SqlMap := ⟨[("X", [c8Row1])], ["a"]⟩

def c8Map2 : SqlMap := ⟨[("X", [c8Row2])], ["a", "b"]⟩

/-- C8 counterexample: with mismatched column-name sequences, `compare` does
not fail; it returns a delta sequence (one `Update` pairing rows of different
lengths). -/
theorem c8_precondition_counterexample :
    c8Map1.col_names ≠ c8Map2.col_names ∧
    compare ⟨3, false⟩ c8Map1 c8Map2 = .ok ([Delta.upd c8Row1 c8Row2], []) := by
  refine ⟨by decide, by decide⟩

/-- C8 (amended): `compare` performs no schema validation at all; schema
agreement is a precondition the caller must ensure.  In non-pedantic mode it
never fails, returning a delta sequence even when the two snapshots' column
sequences differ.  (The extra hypotheses — separate well-formedness of each
snapshot, snapshot-1 rows no longer than snapshot-2 rows, threshold below
1000 — delimit the region where the C++ has defined behaviour; the model
needs none of them.) -/
theorem c8_no_precondition_check (cfg : Cfg) (cn1 cn2 : List String)
    (m1 m2 : SqlMap) (h1 : WF cn1 m1) (h2 : WF cn2 m2)
    (hlen : cn1.length ≤ cn2.length) (hped : cfg.pedantic = false)
    (hmd : cfg.maxDist < 1000) :
    ∃ out, compare cfg m1 m2 = .ok out :=
  compare_ok_of_not_pedantic cfg m1 m2 hped

/-- C8 witness: the no-failure theorem at the concrete mismatched-schema
input. -/
theorem c8_no_precondition_check_witness :
    c8Map1.col_names ≠ c8Map2.col_names ∧
    ∃ out, compare ⟨3, false⟩ c8Map1 c8Map2 = .ok out :=
  ⟨by decide,
    c8_no_precondition_check ⟨3, false⟩ ["a"] ["a", "b"] c8Map1 c8Map2
      (by decide) (by decide) (by decide) rfl (by decide)⟩

end PdgV1
